import Mathlib

/-!
Shallow embedding of the string-case-conversion helpers of this repository.

The repository holds two JavaScript source files:

* an unnamed file defining `camelCase`, `dotCase` and a delimiter-aware
  `toKebabCase` (embedded below in namespace `Part000`);
* `chain_prompt.js` defining a simplified `toKebabCase`
  (embedded below in namespace `ChainPrompt`).

Strings are modelled as their lists of characters (`String.data`).  The
JavaScript regex character classes map onto the core predicates:
`[A-Z]` is `Char.isUpper`, `[a-z]` is `Char.isLower`, `[0-9]` is
`Char.isDigit`, `[a-zA-Z0-9]` is `Char.isAlphanum`, and `[a-z0-9]` is
`isLowerDigit` defined here.  `String.prototype.toLowerCase` and
`toUpperCase` agree with `Char.toLower` and `Char.toUpper` on the ASCII
letters, which are the only characters these functions ever re-case on the
word tokens (tokens consist of `[a-zA-Z0-9]` characters only); the
simplified kebab routine also lower-cases the raw input, where the model
is exact on ASCII text.
-/

/-- A JavaScript call argument as far as these functions can distinguish it:
`null`, `undefined`, a string, or a non-string value (number, boolean,
object). -/
inductive JSValue where
  | null
  | undefined
  | str (s : String)
  | num (n : Int)
  | boolean (b : Bool)
  | object
deriving DecidableEq, Repr

/-- The single error kind of the library: the thrown `Error` carrying its
message. -/
structure InvalidInputError where
  message : String
deriving DecidableEq, Repr

/-- The regex character class `[a-z0-9]`. -/
def isLowerDigit (c : Char) : Bool :=
  c.isLower || c.isDigit

/-- The ASCII characters matched by the JavaScript whitespace class `\s`
(space, tab, line feed, carriage return, vertical tab, form feed). -/
def isJsWhitespace (c : Char) : Bool :=
  c = ' ' || c = '\t' || c = '\n' || c = '\r' || c = '\x0b' || c = '\x0c'

namespace Part000

/-- Model of `input.split(/[^a-zA-Z0-9]+/).filter(Boolean)`: the separator
regex eats a maximal run of non-alphanumeric characters, so the surviving
fragments are exactly the maximal runs of `[a-zA-Z0-9]` characters, in
input order; `filter(Boolean)` drops the empty fragments produced by
leading, trailing or consecutive separators.  The pipeline split
`/[^a-zA-Z0-9]+|[\s_]+/` used by `dotCase` and `toKebabCase` is the same
splitter, because `[\s_]` is contained in `[^a-zA-Z0-9]` and the first
alternative is preferred and maximal.  A character is prepended to the
word in front of it exactly when the next character is still
alphanumeric. -/
def splitWords : List Char → List (List Char)
  | [] => []
  | c :: cs =>
    if c.isAlphanum then
      match cs with
      | [] => [[c]]
      | d :: _ =>
        if d.isAlphanum then
          match splitWords cs with
          | [] => [[c]]
          | w :: ws => (c :: w) :: ws
        else
          [c] :: splitWords cs
    else
      splitWords cs

/-- Model of the `map` callback of `camelCase`: acronyms
(`word === word.toUpperCase()`) are lower-cased at index 0 and kept
verbatim otherwise; any other word is lower-cased at index 0, and
otherwise rebuilt as `word.charAt(0).toUpperCase() +
word.slice(1).toLowerCase()`. -/
def mapWord (idx : Nat) (w : List Char) : List Char :=
  if w = w.map Char.toUpper then
    if idx = 0 then w.map Char.toLower else w
  else if idx = 0 then
    w.map Char.toLower
  else
    match w with
    | [] => []
    | c :: cs => c.toUpper :: cs.map Char.toLower

/-- The `camelCase` function of the unnamed source file: absent input gives
the empty string, non-string input throws, and a string is tokenized with
`splitWords`, mapped through `mapWord` with its index, and joined with no
separator. -/
def camelCase (input : JSValue) : Except InvalidInputError String :=
  match input with
  | .undefined => .ok ("")
  | .null => .ok ("")
  | .str s =>
    let words := splitWords s.data
    if words.length = 0 then .ok ("")
    else .ok (String.mk ((words.enum.map (fun p => mapWord p.1 p.2)).flatten))
  | _ => .error ⟨"Input must be a string, undefined, or null."⟩

/-- Model of `replace(/([a-z0-9])([A-Z])/g, '$1 $2')`: every match is a
two-character window, a `[a-z0-9]` character directly followed by a
`[A-Z]` character, and the replacement re-emits both around a space.  The
global scan resumes after the consumed pair; since a match must begin
with a `[a-z0-9]` character, the consumed uppercase character can never
start the next match, so consuming it loses nothing. -/
def replaceLowerUpper : List Char → List Char
  | a :: b :: rest =>
    if isLowerDigit a && b.isUpper then a :: ' ' :: b :: replaceLowerUpper rest
    else a :: replaceLowerUpper (b :: rest)
  | cs => cs

/-- Model of `replace(/([A-Z]+)([A-Z][a-z0-9]+)/g, '$1 $2')`.  A match of
that regex is an uppercase run of length at least two directly followed by
a `[a-z0-9]` run of length at least one (greedy `[A-Z]+` backtracks
exactly one character into `$2`), and the replacement inserts one space
between the last two uppercase characters of the run.  Hence a space is
inserted between adjacent characters `a` and `b` exactly when `a` and `b`
are both uppercase and the next character is in `[a-z0-9]`.  Two such
three-character windows can never overlap (the third character of one is
in `[a-z0-9]` while the first two of another are uppercase), and the text
a match consumes beyond its window is its trailing `[a-z0-9]` run, which
cannot contain the start of another match; so scanning every window in
turn reproduces the global replacement. -/
def replaceAcronyms : List Char → List Char
  | a :: b :: c :: rest =>
    if a.isUpper && b.isUpper && isLowerDigit c then
      a :: ' ' :: replaceAcronyms (b :: c :: rest)
    else
      a :: replaceAcronyms (b :: c :: rest)
  | cs => cs

/-- The word list of the delimiter-aware pipeline shared by `dotCase` and
`toKebabCase`: both boundary-inserting replacements, then the split
(`splitWords` also models the split `/[^a-zA-Z0-9]+|[\s_]+/`, see its
doc) with `filter(Boolean)`. -/
def pipelineWords (cs : List Char) : List (List Char) :=
  splitWords (replaceAcronyms (replaceLowerUpper cs))

/-- Model of `Array.prototype.join(sep)` for a word list whose entries are
character lists. -/
def joinSep (sep : Char) : List (List Char) → List Char
  | [] => []
  | [w] => w
  | w :: ws => w ++ sep :: joinSep sep ws

/-- Common body of `dotCase` and the delimiter-aware `toKebabCase` at the
character-list level: `words.map(w => w.toLowerCase()).join(sep)` over
`pipelineWords`; the two source functions differ only in `sep`. -/
def delimChars (sep : Char) (cs : List Char) : List Char :=
  joinSep sep ((pipelineWords cs).map (List.map Char.toLower))

/-- Common body of `dotCase` and the delimiter-aware `toKebabCase` on a
string argument. -/
def delimJoin (sep : Char) (s : String) : String :=
  String.mk (delimChars sep s.data)

/-- The `dotCase` function of the unnamed source file. -/
def dotCase (input : JSValue) : Except InvalidInputError String :=
  match input with
  | .undefined => .ok ("")
  | .null => .ok ("")
  | .str s => .ok (delimJoin '.' s)
  | _ => .error ⟨"Input must be a string, undefined, or null."⟩

/-- The delimiter-aware `toKebabCase` function of the unnamed source
file. -/
def toKebabCase (input : JSValue) : Except InvalidInputError String :=
  match input with
  | .undefined => .ok ("")
  | .null => .ok ("")
  | .str s => .ok (delimJoin '-' s)
  | _ => .error ⟨"Input must be a string, undefined, or null."⟩

end Part000

namespace ChainPrompt

/-- Model of a global replacement `replace(/X+/g, r)` for a character
class `X`: each maximal run of characters satisfying `p` is emitted as the
single character `r`. -/
def collapseRuns (p : Char → Bool) (r : Char) : List Char → List Char
  | [] => []
  | c :: cs =>
    if p c then
      match cs with
      | [] => [r]
      | d :: _ =>
        if p d then collapseRuns p r cs else r :: collapseRuns p r cs
    else
      c :: collapseRuns p r cs

/-- Model of `String.prototype.trim()`: strip leading and trailing
whitespace. -/
def trim (cs : List Char) : List Char :=
  ((cs.dropWhile isJsWhitespace).reverse.dropWhile isJsWhitespace).reverse

/-- The simplified `toKebabCase` of `chain_prompt.js`: it requires a
string argument (null and undefined are rejected like any other
non-string), then trims, lower-cases, replaces every run of
non-alphanumeric characters (`/[^a-z0-9]+/gi`, case-insensitive, so the
class is `[^a-zA-Z0-9]`) with a single space, trims again, and replaces
every whitespace run (`/\s+/g`) with a single hyphen. -/
def toKebabCase (input : JSValue) : Except InvalidInputError String :=
  match input with
  | .str s =>
    .ok (String.mk (collapseRuns isJsWhitespace '-'
      (trim (collapseRuns (fun c => !c.isAlphanum) ' '
        ((trim s.data).map Char.toLower)))))
  | _ => .error ⟨"Invalid Input: expected a string."⟩

end ChainPrompt

/-! General facts about the character classes and `Char.toLower`. -/

theorem isUpper_iff (c : Char) : c.isUpper = true ↔ 65 ≤ c.toNat ∧ c.toNat ≤ 90 := by
  simp only [Char.isUpper, ge_iff_le, Bool.and_eq_true, decide_eq_true_eq,
    UInt32.le_def, BitVec.le_def]
  exact Iff.rfl

theorem isLower_iff (c : Char) : c.isLower = true ↔ 97 ≤ c.toNat ∧ c.toNat ≤ 122 := by
  simp only [Char.isLower, ge_iff_le, Bool.and_eq_true, decide_eq_true_eq,
    UInt32.le_def, BitVec.le_def]
  exact Iff.rfl

theorem isDigit_iff (c : Char) : c.isDigit = true ↔ 48 ≤ c.toNat ∧ c.toNat ≤ 57 := by
  simp only [Char.isDigit, ge_iff_le, Bool.and_eq_true, decide_eq_true_eq,
    UInt32.le_def, BitVec.le_def]
  exact Iff.rfl

theorem toLower_eq_self (c : Char) (h : c.isUpper = false) : c.toLower = c := by
  have h2 : ¬ (65 ≤ c.toNat ∧ c.toNat ≤ 90) := by
    intro hc
    rw [← isUpper_iff] at hc
    simp [h] at hc
  simp only [Char.toLower]
  rw [if_neg]
  omega

theorem toLower_not_upper (c : Char) : (Char.toLower c).isUpper = false := by
  by_cases h : c.isUpper = true
  · have hb := (isUpper_iff c).mp h
    obtain ⟨h1, h2⟩ := hb
    simp only [Char.toLower]
    rw [if_pos (by omega)]
    set n := c.toNat with hn
    interval_cases n <;> decide
  · rw [toLower_eq_self c (by simpa using h)]
    simpa using h

theorem toLower_alnum (c : Char) (h : c.isAlphanum = true) :
    (Char.toLower c).isAlphanum = true := by
  by_cases hu : c.isUpper = true
  · have hb := (isUpper_iff c).mp hu
    obtain ⟨h1, h2⟩ := hb
    simp only [Char.toLower]
    rw [if_pos (by omega)]
    set n := c.toNat with hn
    interval_cases n <;> decide
  · rw [toLower_eq_self c (by simpa using hu)]
    exact h

theorem toLower_idem (c : Char) : (Char.toLower c).toLower = c.toLower :=
  toLower_eq_self _ (toLower_not_upper c)

theorem upper_alnum (c : Char) (h : c.isUpper = true) : c.isAlphanum = true := by
  simp [Char.isAlphanum, Char.isAlpha, h]

theorem upper_not_lowerDigit (c : Char) (h : c.isUpper = true) :
    isLowerDigit c = false := by
  have hb := (isUpper_iff c).mp h
  have h1 : c.isLower = false := by
    rw [Bool.eq_false_iff]
    intro hl
    have := (isLower_iff c).mp hl
    omega
  have h2 : c.isDigit = false := by
    rw [Bool.eq_false_iff]
    intro hl
    have := (isDigit_iff c).mp hl
    omega
  rw [isLowerDigit, h1, h2]
  rfl

theorem alnum_ne_of_not_alnum (c d : Char) (hc : c.isAlphanum = true)
    (hd : d.isAlphanum = false) : c ≠ d := by
  intro h
  rw [h, hd] at hc
  exact Bool.noConfusion hc

namespace Part000

/-! Structural facts about the tokenizer and the boundary replacements. -/

theorem splitWords_sound (cs : List Char) :
    ∀ w ∈ splitWords cs, w ≠ [] ∧ ∀ c ∈ w, c.isAlphanum = true := by
  induction cs using splitWords.induct with
  | case1 => simp [splitWords]
  | case2 d h => simp [splitWords, h]
  | case3 d h d1 tail h1 hrec ih =>
    rw [splitWords]
    simp only [h, if_true, h1, hrec]
    intro w hw
    simp at hw
    subst hw
    simp [h]
  | case4 d h d1 tail h1 w ws hrec ih =>
    rw [splitWords]
    simp only [h, if_true, h1, if_true, hrec]
    intro w2 hw2
    rcases List.mem_cons.mp hw2 with h2 | h2
    · subst h2
      have hhead := ih w (by rw [hrec]; exact List.mem_cons_self w ws)
      refine ⟨by simp, ?_⟩
      intro c hc
      rcases List.mem_cons.mp hc with rfl | hc
      · exact h
      · exact hhead.2 c hc
    · exact ih w2 (by rw [hrec]; exact List.mem_cons_of_mem w h2)
  | case5 d h d1 tail h1 ih =>
    rw [splitWords]
    simp only [h, if_true, (by simpa using h1 : d1.isAlphanum = false)]
    intro w hw
    simp only [Bool.false_eq_true, if_false] at hw
    rcases List.mem_cons.mp hw with rfl | hw
    · exact ⟨by simp, by simpa using h⟩
    · exact ih w hw
  | case6 d tail h ih =>
    rw [splitWords.eq_def]
    cases tail <;> simp only [(by simpa using h : d.isAlphanum = false), Bool.false_eq_true,
      if_false] <;> exact ih

theorem splitWords_sep (d : Char) (cs : List Char) (h : d.isAlphanum = false) :
    splitWords (d :: cs) = splitWords cs := by
  rw [splitWords.eq_def]
  cases cs <;> simp [h, splitWords]

theorem splitWords_word (xs : List Char) (hne : xs ≠ [])
    (hal : ∀ c ∈ xs, c.isAlphanum = true) : splitWords xs = [xs] := by
  induction xs with
  | nil => exact absurd rfl hne
  | cons x xs ih =>
    have hx : x.isAlphanum = true := hal x (List.mem_cons_self x xs)
    cases xs with
    | nil => simp [splitWords, hx]
    | cons y ys =>
      have hy : y.isAlphanum = true := hal y (by simp)
      have ih2 := ih (by simp) (fun c hc => hal c (List.mem_cons_of_mem x hc))
      rw [splitWords]
      simp [hx, hy, ih2]

theorem splitWords_append (xs : List Char) (d : Char) (ys : List Char)
    (hne : xs ≠ []) (hal : ∀ c ∈ xs, c.isAlphanum = true)
    (hd : d.isAlphanum = false) :
    splitWords (xs ++ d :: ys) = xs :: splitWords ys := by
  induction xs with
  | nil => exact absurd rfl hne
  | cons x xs ih =>
    have hx : x.isAlphanum = true := hal x (List.mem_cons_self x xs)
    cases xs with
    | nil =>
      rw [List.cons_append, List.nil_append, splitWords.eq_def]
      cases ys <;> simp [hx, hd, splitWords_sep d _ hd, splitWords]
    | cons y ys2 =>
      have hy : y.isAlphanum = true := hal y (by simp)
      have ih2 := ih (by simp) (fun c hc => hal c (List.mem_cons_of_mem x hc))
      rw [List.cons_append, splitWords.eq_def]
      simp only [List.cons_append]
      rw [List.cons_append] at ih2
      rw [ih2]
      simp [hx, hy]

theorem splitWords_none (cs : List Char) (h : ∀ c ∈ cs, c.isAlphanum = false) :
    splitWords cs = [] := by
  induction cs with
  | nil => rfl
  | cons c cs ih =>
    rw [splitWords_sep c cs (h c (List.mem_cons_self c cs))]
    exact ih (fun x hx => h x (List.mem_cons_of_mem c hx))

theorem joinSep_nil (sep : Char) : joinSep sep [] = [] := rfl

theorem joinSep_single (sep : Char) (w : List Char) : joinSep sep [w] = w := rfl

theorem joinSep_cons₂ (sep : Char) (w w2 : List Char) (ws : List (List Char)) :
    joinSep sep (w :: w2 :: ws) = w ++ sep :: joinSep sep (w2 :: ws) := rfl

theorem mem_joinSep (sep : Char) (ws : List (List Char)) (c : Char)
    (hc : c ∈ joinSep sep ws) : c = sep ∨ ∃ w ∈ ws, c ∈ w := by
  induction ws with
  | nil => simp [joinSep] at hc
  | cons w ws ih =>
    cases ws with
    | nil =>
      rw [joinSep_single] at hc
      exact Or.inr ⟨w, by simp, hc⟩
    | cons w2 ws2 =>
      rw [joinSep_cons₂] at hc
      rcases List.mem_append.mp hc with h | h
      · exact Or.inr ⟨w, by simp, h⟩
      · rcases List.mem_cons.mp h with rfl | h
        · exact Or.inl rfl
        · rcases ih h with h2 | ⟨w3, hw3, hcw3⟩
          · exact Or.inl h2
          · exact Or.inr ⟨w3, List.mem_cons_of_mem w hw3, hcw3⟩

theorem splitWords_joinSep (sep : Char) (hsep : sep.isAlphanum = false)
    (ws : List (List Char))
    (h : ∀ w ∈ ws, w ≠ [] ∧ ∀ c ∈ w, c.isAlphanum = true) :
    splitWords (joinSep sep ws) = ws := by
  induction ws with
  | nil => rfl
  | cons w ws ih =>
    cases ws with
    | nil =>
      rw [joinSep_single]
      have hw := h w (by simp)
      exact splitWords_word w hw.1 hw.2
    | cons w2 ws2 =>
      rw [joinSep_cons₂]
      have hw := h w (by simp)
      rw [splitWords_append w sep (joinSep sep (w2 :: ws2)) hw.1 hw.2 hsep]
      rw [ih (fun x hx => h x (List.mem_cons_of_mem w hx))]

theorem replaceLowerUpper_id (cs : List Char) (h : ∀ c ∈ cs, c.isUpper = false) :
    replaceLowerUpper cs = cs := by
  induction cs using replaceLowerUpper.induct with
  | case1 a b rest hc ih =>
    have hb : b.isUpper = true := by
      simp only [Bool.and_eq_true] at hc
      exact hc.2
    rw [h b (by simp)] at hb
    simp at hb
  | case2 a b rest hc ih =>
    rw [replaceLowerUpper, if_neg hc]
    rw [ih (fun c hcc => h c (List.mem_cons_of_mem a hcc))]
  | case3 cs h1 =>
    cases cs with
    | nil => rfl
    | cons a tl =>
      cases tl with
      | nil => rfl
      | cons b r => exact absurd rfl (h1 a b r)

theorem replaceAcronyms_id (cs : List Char) (h : ∀ c ∈ cs, c.isUpper = false) :
    replaceAcronyms cs = cs := by
  induction cs using replaceAcronyms.induct with
  | case1 a b c rest hc ih =>
    have ha : a.isUpper = true := by
      simp only [Bool.and_eq_true] at hc
      exact hc.1.1
    rw [h a (by simp)] at ha
    simp at ha
  | case2 a b c rest hc ih =>
    rw [replaceAcronyms, if_neg hc]
    rw [ih (fun x hx => h x (List.mem_cons_of_mem a hx))]
  | case3 cs h1 =>
    cases cs with
    | nil => rfl
    | cons a tl =>
      cases tl with
      | nil => rfl
      | cons b r =>
        cases r with
        | nil => rfl
        | cons c r2 => exact absurd rfl (h1 a b c r2)

theorem delimChars_idem (sep : Char) (hsep : sep.isAlphanum = false) (cs : List Char) :
    delimChars sep (delimChars sep cs) = delimChars sep cs := by
  have hsepu : sep.isUpper = false := by
    rw [Bool.eq_false_iff]
    intro hu
    have h2 := upper_alnum sep hu
    rw [hsep] at h2
    exact Bool.noConfusion h2
  set ws0 := splitWords (replaceAcronyms (replaceLowerUpper cs)) with hws0
  set ws := ws0.map (List.map Char.toLower) with hws
  set t := joinSep sep ws with ht
  have hsound := splitWords_sound (replaceAcronyms (replaceLowerUpper cs))
  have hwords : ∀ w ∈ ws, w ≠ [] ∧ ∀ c ∈ w, c.isAlphanum = true := by
    intro w hw
    rcases List.mem_map.mp hw with ⟨w0, hw0, rfl⟩
    have h0 := hsound w0 (by rw [hws0] at hw0; exact hw0)
    refine ⟨by simpa using h0.1, ?_⟩
    intro c hc
    rcases List.mem_map.mp hc with ⟨c0, hc0, rfl⟩
    exact toLower_alnum c0 (h0.2 c0 hc0)
  have hnoup : ∀ c ∈ t, c.isUpper = false := by
    intro c hc
    rcases mem_joinSep sep ws c (by rw [ht] at hc; exact hc) with rfl | ⟨w, hw, hcw⟩
    · exact hsepu
    · rcases List.mem_map.mp hw with ⟨w0, hw0, rfl⟩
      rcases List.mem_map.mp hcw with ⟨c0, hc0, rfl⟩
      exact toLower_not_upper c0
  have hlow : ws.map (List.map Char.toLower) = ws := by
    rw [hws, List.map_map]
    apply List.map_congr_left
    intro w _
    show List.map Char.toLower (List.map Char.toLower w) = List.map Char.toLower w
    rw [List.map_map]
    apply List.map_congr_left
    intro c _
    exact toLower_idem c
  show delimChars sep t = t
  rw [delimChars, pipelineWords, replaceLowerUpper_id t hnoup, replaceAcronyms_id t hnoup, ht,
    splitWords_joinSep sep hsep ws hwords, hlow]

end Part000

/-! Definitions stated from the wording of the specification, for the
refinement claims; they are compared with the source-derived definitions
in the theorems below. -/

/-- Stated from the spec wording: a word is an acronym when it equals its
own uppercase form. -/
def isAcronym (w : List Char) : Bool :=
  w.map Char.toUpper == w

/-- Stated from the spec wording: capitalize the first character and
lowercase the rest. -/
def capitalizeFirst : List Char → List Char
  | [] => []
  | c :: cs => c.toUpper :: cs.map Char.toLower

/-- Stated from the spec wording of the camelCase joiner: for word `i`
(0-indexed), an acronym is lower-cased when `i = 0` and kept verbatim
otherwise; any other word is lower-cased when `i = 0`, and otherwise has
its first character capitalized and the rest lower-cased. -/
def camelWordSpec (i : Nat) (w : List Char) : List Char :=
  if isAcronym w then
    if i = 0 then w.map Char.toLower else w
  else if i = 0 then
    w.map Char.toLower
  else
    capitalizeFirst w

/-- Stated from the spec wording: concatenate the per-index images of the
words with no separator, counting indices from `i`. -/
def camelJoinSpec (i : Nat) : List (List Char) → List Char
  | [] => []
  | w :: ws => camelWordSpec i w ++ camelJoinSpec (i + 1) ws

/-- Stated from the claim wording of the dot-to-kebab comparison: replace
a dot by a hyphen and keep every other character. -/
def dotToDash (c : Char) : Char :=
  if c = '.' then '-' else c

namespace Part000

theorem mapWord_eq_spec (i : Nat) (w : List Char) : mapWord i w = camelWordSpec i w := by
  have hiff : isAcronym w = true ↔ w = w.map Char.toUpper := by
    rw [isAcronym, beq_iff_eq]
    exact eq_comm
  by_cases h : w = w.map Char.toUpper
  · rw [mapWord.eq_def, camelWordSpec, if_pos h, if_pos (hiff.mpr h)]
  · rw [mapWord.eq_def, camelWordSpec, if_neg h, if_neg (fun hx => h (hiff.mp hx))]
    by_cases h0 : i = 0
    · rw [if_pos h0, if_pos h0]
    · rw [if_neg h0, if_neg h0]
      cases w with
      | nil => rfl
      | cons c cs => rfl

theorem flatten_enumFrom_mapWord (ws : List (List Char)) (i : Nat) :
    ((List.enumFrom i ws).map (fun p => mapWord p.1 p.2)).flatten = camelJoinSpec i ws := by
  induction ws generalizing i with
  | nil => rfl
  | cons w ws ih =>
    rw [List.enumFrom_cons, List.map_cons, List.flatten_cons, ih (i + 1),
      mapWord_eq_spec, camelJoinSpec]

end Part000

/-! The claims. -/

/-- C1: for `camelCase`, `dotCase` and the delimiter-aware `toKebabCase`,
null and undefined input yields the empty string as a success, any other
non-string value raises the invalid-input error, and every string argument
succeeds; so those are the only failure and empty-by-absence cases of the
validation step. -/
theorem validation_contract :
    (Part000.camelCase .null = .ok ("")
      ∧ Part000.camelCase .undefined = .ok ("")
      ∧ Part000.dotCase .null = .ok ("")
      ∧ Part000.dotCase .undefined = .ok ("")
      ∧ Part000.toKebabCase .null = .ok ("")
      ∧ Part000.toKebabCase .undefined = .ok (""))
    ∧ (∀ n : Int,
        Part000.camelCase (.num n) = .error ⟨"Input must be a string, undefined, or null."⟩
        ∧ Part000.dotCase (.num n) = .error ⟨"Input must be a string, undefined, or null."⟩
        ∧ Part000.toKebabCase (.num n) = .error ⟨"Input must be a string, undefined, or null."⟩)
    ∧ (∀ b : Bool,
        Part000.camelCase (.boolean b) = .error ⟨"Input must be a string, undefined, or null."⟩
        ∧ Part000.dotCase (.boolean b) = .error ⟨"Input must be a string, undefined, or null."⟩
        ∧ Part000.toKebabCase (.boolean b) = .error ⟨"Input must be a string, undefined, or null."⟩)
    ∧ (Part000.camelCase .object = .error ⟨"Input must be a string, undefined, or null."⟩
      ∧ Part000.dotCase .object = .error ⟨"Input must be a string, undefined, or null."⟩
      ∧ Part000.toKebabCase .object = .error ⟨"Input must be a string, undefined, or null."⟩)
    ∧ (∀ s : String,
        (∃ t, Part000.camelCase (.str s) = .ok t)
        ∧ Part000.dotCase (.str s) = .ok (Part000.delimJoin '.' s)
        ∧ Part000.toKebabCase (.str s) = .ok (Part000.delimJoin '-' s)) := by
  refine ⟨⟨rfl, rfl, rfl, rfl, rfl, rfl⟩, fun n => ⟨rfl, rfl, rfl⟩, fun b => ⟨rfl, rfl, rfl⟩,
    ⟨rfl, rfl, rfl⟩, fun s => ⟨?_, rfl, rfl⟩⟩
  show ∃ t, (if (Part000.splitWords s.data).length = 0
    then Except.ok ("")
    else .ok (String.mk (((Part000.splitWords s.data).enum.map
      (fun p => Part000.mapWord p.1 p.2)).flatten))) = Except.ok t
  split
  · exact ⟨_, rfl⟩
  · exact ⟨_, rfl⟩

/-- C2: on every string input, `camelCase` equals the spec-side joiner
`camelJoinSpec` applied to the word tokens, and in particular maps a
string of three space-separated words with a trailing acronym to the
expected camel-case form. -/
theorem camelCase_word_rule :
    (∀ s : String, Part000.camelCase (.str s)
      = .ok (String.mk (camelJoinSpec 0 (Part000.splitWords s.data))))
    ∧ Part000.camelCase (.str ("Andy Nguyen AWS")) = .ok ("andyNguyenAWS") := by
  refine ⟨?_, rfl⟩
  intro s
  show (if (Part000.splitWords s.data).length = 0
    then Except.ok ("")
    else .ok (String.mk (((Part000.splitWords s.data).enum.map
      (fun p => Part000.mapWord p.1 p.2)).flatten)))
    = .ok (String.mk (camelJoinSpec 0 (Part000.splitWords s.data)))
  rcases h : Part000.splitWords s.data with _ | ⟨w, ws⟩
  · rfl
  · rw [if_neg (by simp)]
    rw [show (w :: ws).enum = List.enumFrom 0 (w :: ws) from rfl]
    rw [Part000.flatten_enumFrom_mapWord]

namespace Part000

theorem delimJoin_idem (sep : Char) (hsep : sep.isAlphanum = false) (s : String) :
    delimJoin sep (delimJoin sep s) = delimJoin sep s := by
  show String.mk (delimChars sep (String.mk (delimChars sep s.data)).data)
    = String.mk (delimChars sep s.data)
  exact congrArg String.mk (delimChars_idem sep hsep s.data)

theorem alnum_words_delim (cs : List Char) :
    ∀ w ∈ (pipelineWords cs).map (List.map Char.toLower),
      w ≠ [] ∧ ∀ c ∈ w, c.isAlphanum = true := by
  intro w hw
  rcases List.mem_map.mp hw with ⟨w0, hw0, rfl⟩
  have h0 := splitWords_sound (replaceAcronyms (replaceLowerUpper cs)) w0 hw0
  refine ⟨by simpa using h0.1, ?_⟩
  intro c hc
  rcases List.mem_map.mp hc with ⟨c0, hc0, rfl⟩
  exact toLower_alnum c0 (h0.2 c0 hc0)

theorem joinSep_map (f : Char → Char) (sep sep2 : Char) (hf : f sep = sep2)
    (ws : List (List Char)) (h : ∀ w ∈ ws, ∀ c ∈ w, f c = c) :
    (joinSep sep ws).map f = joinSep sep2 ws := by
  induction ws with
  | nil => rfl
  | cons w ws ih =>
    have hw : ∀ c ∈ w, f c = c := h w (by simp)
    have hmap : w.map f = w := by
      rw [show w.map f = w.map id from List.map_congr_left hw, List.map_id]
    cases ws with
    | nil =>
      rw [joinSep_single, joinSep_single, hmap]
    | cons w2 ws2 =>
      rw [joinSep_cons₂, joinSep_cons₂, List.map_append, hmap, List.map_cons, hf,
        ih (fun x hx => h x (List.mem_cons_of_mem w hx))]

end Part000

/-- C5: `dotCase` and the delimiter-aware `toKebabCase` are idempotent on
every string input; the first two conjuncts tie the functions to their
string-level bodies, the last two are the idempotence equations. -/
theorem dot_kebab_idempotent : ∀ s : String,
    Part000.dotCase (.str s) = .ok (Part000.delimJoin '.' s)
    ∧ Part000.toKebabCase (.str s) = .ok (Part000.delimJoin '-' s)
    ∧ Part000.delimJoin '.' (Part000.delimJoin '.' s) = Part000.delimJoin '.' s
    ∧ Part000.delimJoin '-' (Part000.delimJoin '-' s) = Part000.delimJoin '-' s :=
  fun s => ⟨rfl, rfl, Part000.delimJoin_idem '.' (by decide) s,
    Part000.delimJoin_idem '-' (by decide) s⟩

/-- C6: the simplified kebab-case collapses separators as expected, does
not split camelCase boundaries, and disagrees with the delimiter-aware
`toKebabCase` on a camelCase-only input. -/
theorem kebab_implementations_disagree :
    ChainPrompt.toKebabCase (.str ("andy_nguyen+AWS")) = .ok ("andy-nguyen-aws")
    ∧ ChainPrompt.toKebabCase (.str ("andyNguyenAWS")) = .ok ("andynguyenaws")
    ∧ Part000.toKebabCase (.str ("andyNguyenAWS")) = .ok ("andy-nguyen-aws")
    ∧ ChainPrompt.toKebabCase (.str ("andyNguyenAWS"))
      ≠ Part000.toKebabCase (.str ("andyNguyenAWS")) := by
  refine ⟨rfl, rfl, rfl, ?_⟩
  intro h
  rw [(rfl : ChainPrompt.toKebabCase (.str ("andyNguyenAWS")) = .ok ("andynguyenaws")),
    (rfl : Part000.toKebabCase (.str ("andyNguyenAWS")) = .ok ("andy-nguyen-aws"))] at h
  exact absurd (Except.ok.inj h) (by decide)

/-- C7: the simplified kebab-case raises the invalid-input error on every
non-string argument, null and undefined included, and succeeds on every
string; absent input is never turned into an empty-string success. -/
theorem simple_kebab_requires_string :
    ChainPrompt.toKebabCase .null = .error ⟨"Invalid Input: expected a string."⟩
    ∧ ChainPrompt.toKebabCase .undefined = .error ⟨"Invalid Input: expected a string."⟩
    ∧ (∀ n : Int, ChainPrompt.toKebabCase (.num n) = .error ⟨"Invalid Input: expected a string."⟩)
    ∧ (∀ b : Bool,
        ChainPrompt.toKebabCase (.boolean b) = .error ⟨"Invalid Input: expected a string."⟩)
    ∧ ChainPrompt.toKebabCase .object = .error ⟨"Invalid Input: expected a string."⟩
    ∧ (∀ s : String, ∃ t, ChainPrompt.toKebabCase (.str s) = .ok t)
    ∧ (∀ r, ChainPrompt.toKebabCase .null ≠ .ok r)
    ∧ (∀ r, ChainPrompt.toKebabCase .undefined ≠ .ok r) :=
  ⟨rfl, rfl, fun _ => rfl, fun _ => rfl, rfl, fun _ => ⟨_, rfl⟩,
    fun _ h => Except.noConfusion h, fun _ h => Except.noConfusion h⟩

/-- C9: on every string input, `dotCase` and the delimiter-aware
`toKebabCase` build the same lower-cased word list and differ only in the
separator: replacing every dot of the `dotCase` output by a hyphen gives
exactly the `toKebabCase` output. -/
theorem dot_kebab_same_words : ∀ s : String,
    Part000.delimJoin '.' s
      = String.mk (Part000.joinSep '.' ((Part000.pipelineWords s.data).map (List.map Char.toLower)))
    ∧ Part000.delimJoin '-' s
      = String.mk (Part000.joinSep '-' ((Part000.pipelineWords s.data).map (List.map Char.toLower)))
    ∧ (Part000.delimJoin '.' s).data.map dotToDash = (Part000.delimJoin '-' s).data := by
  intro s
  refine ⟨rfl, rfl, ?_⟩
  show (Part000.delimChars '.' s.data).map dotToDash = Part000.delimChars '-' s.data
  rw [Part000.delimChars, Part000.delimChars]
  apply Part000.joinSep_map dotToDash '.' '-' (by decide)
  intro w hw c hc
  have halnum := (Part000.alnum_words_delim s.data w hw).2 c hc
  rw [dotToDash, if_neg (alnum_ne_of_not_alnum c '.' halnum (by decide))]

/-- C10: every string with no alphanumeric character, the empty string
included, is mapped to the empty string by `camelCase`, `dotCase` and the
delimiter-aware `toKebabCase`, all as successes; so empty output is not
exclusive to absent input. -/
theorem no_alnum_empty_output : ∀ s : String, (∀ c ∈ s.data, c.isAlphanum = false) →
    Part000.camelCase (.str s) = .ok ("")
    ∧ Part000.dotCase (.str s) = .ok ("")
    ∧ Part000.toKebabCase (.str s) = .ok ("") := by
  intro s h
  have hnoup : ∀ c ∈ s.data, c.isUpper = false := by
    intro c hc
    rw [Bool.eq_false_iff]
    intro hu
    have h2 := upper_alnum c hu
    rw [h c hc] at h2
    exact Bool.noConfusion h2
  have hsplit : Part000.splitWords s.data = [] := Part000.splitWords_none s.data h
  refine ⟨?_, ?_, ?_⟩
  · show (if (Part000.splitWords s.data).length = 0
      then Except.ok ("")
      else .ok (String.mk (((Part000.splitWords s.data).enum.map
        (fun p => Part000.mapWord p.1 p.2)).flatten))) = Except.ok ("")
    rw [hsplit]
    rfl
  · show Except.ok (Part000.delimJoin '.' s) = Except.ok ("")
    rw [Part000.delimJoin, Part000.delimChars, Part000.pipelineWords,
      Part000.replaceLowerUpper_id s.data hnoup, Part000.replaceAcronyms_id s.data hnoup,
      hsplit]
    rfl
  · show Except.ok (Part000.delimJoin '-' s) = Except.ok ("")
    rw [Part000.delimJoin, Part000.delimChars, Part000.pipelineWords,
      Part000.replaceLowerUpper_id s.data hnoup, Part000.replaceAcronyms_id s.data hnoup,
      hsplit]
    rfl

/-- Witness for C10 at the concrete inputs `"+!?"` and `""`. -/
theorem no_alnum_empty_output_witness :
    (∀ c ∈ ("+!?" : String).data, c.isAlphanum = false)
    ∧ Part000.camelCase (.str ("+!?")) = .ok ("")
    ∧ Part000.dotCase (.str ("+!?")) = .ok ("")
    ∧ Part000.toKebabCase (.str ("+!?")) = .ok ("")
    ∧ Part000.camelCase (.str ("")) = .ok ("") := by
  have h1 : ∀ c ∈ ("+!?" : String).data, c.isAlphanum = false := by decide
  have h2 : ∀ c ∈ ("" : String).data, c.isAlphanum = false := by decide
  obtain ⟨ha, hb, hc⟩ := no_alnum_empty_output ("+!?") h1
  exact ⟨h1, ha, hb, hc, (no_alnum_empty_output ("") h2).1⟩

theorem lowerDigit_not_upper (c : Char) (h : isLowerDigit c = true) :
    c.isUpper = false := by
  rw [Bool.eq_false_iff]
  intro hu
  rw [upper_not_lowerDigit c hu] at h
  exact Bool.noConfusion h

namespace Part000

theorem replaceAcronyms_cons₃ (a b c : Char) (rest : List Char) :
    replaceAcronyms (a :: b :: c :: rest)
      = if a.isUpper && b.isUpper && isLowerDigit c then
          a :: ' ' :: replaceAcronyms (b :: c :: rest)
        else
          a :: replaceAcronyms (b :: c :: rest) := by
  rw [replaceAcronyms]

theorem replaceAcronyms_not_upper_head (a : Char) (rest : List Char)
    (h : a.isUpper = false) :
    replaceAcronyms (a :: rest) = a :: replaceAcronyms rest := by
  cases rest with
  | nil => rfl
  | cons b r =>
    cases r with
    | nil => rfl
    | cons c r2 =>
      rw [replaceAcronyms_cons₃, if_neg (by simp [h])]

theorem replaceAcronyms_boundary (us : List Char) (u l : Char) (rest : List Char)
    (hne : us ≠ []) (hus : ∀ c ∈ us, c.isUpper = true)
    (hu : u.isUpper = true) (hl : isLowerDigit l = true) :
    replaceAcronyms (us ++ u :: l :: rest) = us ++ ' ' :: u :: l :: replaceAcronyms rest := by
  induction us with
  | nil => exact absurd rfl hne
  | cons v vs ih =>
    have hv : v.isUpper = true := hus v (by simp)
    cases vs with
    | nil =>
      rw [List.cons_append, List.nil_append, replaceAcronyms_cons₃, if_pos (by simp [hv, hu, hl])]
      rw [List.cons_append, List.nil_append]
      cases rest with
      | nil => rfl
      | cons r1 r2 =>
        rw [replaceAcronyms_cons₃, if_neg (by simp [lowerDigit_not_upper l hl])]
        rw [replaceAcronyms_not_upper_head l (r1 :: r2) (lowerDigit_not_upper l hl)]
    | cons v2 vs2 =>
      have hv2 : v2.isUpper = true := hus v2 (by simp)
      have ih2 := ih (by simp) (fun c hc => hus c (List.mem_cons_of_mem v hc))
      cases vs2 with
      | nil =>
        simp only [List.cons_append, List.nil_append] at ih2 ⊢
        rw [replaceAcronyms_cons₃, if_neg (by simp [upper_not_lowerDigit u hu]), ih2]
      | cons v3 vs3 =>
        have hv3 : v3.isUpper = true := hus v3 (by simp)
        simp only [List.cons_append] at ih2 ⊢
        rw [replaceAcronyms_cons₃, if_neg (by simp [upper_not_lowerDigit v3 hv3]), ih2]

end Part000

/-- C3 counterexample: on the input string of a single uppercase letter
followed by a capitalized word, the acronym-boundary step does insert a
space after the single uppercase letter (the regex run is one-or-more, not
two-or-more), and `dotCase` splits the input in two. -/
theorem single_upper_boundary_cex :
    Part000.replaceAcronyms (("AFoo" : String).data) = ("A Foo" : String).data
    ∧ Part000.dotCase (.str ("AFoo")) = .ok ("a.foo")
    ∧ Part000.pipelineWords (("AFoo" : String).data)
      = [("A" : String).data, ("Foo" : String).data]
    ∧ ("a.foo" : String) ≠ ("afoo" : String) :=
  ⟨rfl, rfl, rfl, by decide⟩

/-- C3 amended: the acronym-boundary step inserts a boundary between a run
of ONE-or-more uppercase characters and a following
uppercase-plus-lowercase-or-digit pair; the example splits as expected. -/
theorem acronym_boundary_rule :
    (∀ (us : List Char) (u l : Char) (rest : List Char),
      us ≠ [] → (∀ c ∈ us, c.isUpper = true) → u.isUpper = true → isLowerDigit l = true →
      Part000.replaceAcronyms (us ++ u :: l :: rest)
        = us ++ ' ' :: u :: l :: Part000.replaceAcronyms rest)
    ∧ Part000.pipelineWords (("AWSFoo" : String).data)
      = [("AWS" : String).data, ("Foo" : String).data]
    ∧ Part000.dotCase (.str ("AWSFoo")) = .ok ("aws.foo") :=
  ⟨Part000.replaceAcronyms_boundary, rfl, rfl⟩

/-- Witness for C3 amended at a concrete instance: a single uppercase
letter before the pair receives the boundary. -/
theorem acronym_boundary_rule_witness :
    Part000.replaceAcronyms (['A'] ++ 'F' :: 'o' :: ['o'])
      = ['A'] ++ ' ' :: 'F' :: 'o' :: Part000.replaceAcronyms ['o'] :=
  acronym_boundary_rule.1 ['A'] 'F' 'o' ['o'] (by decide) (by decide) (by decide) (by decide)

/-- C4 counterexample: a run of uppercase letters followed by an uppercase
letter and only digits IS split by the acronym-boundary step, because the
trailing regex class includes the digits; `dotCase` splits the input. -/
theorem digit_trailing_split_cex :
    Part000.replaceAcronyms (("AWS2" : String).data) = ("AW S2" : String).data
    ∧ Part000.dotCase (.str ("AWS2")) = .ok ("aw.s2")
    ∧ Part000.pipelineWords (("AWS2" : String).data)
      = [("AW" : String).data, ("S2" : String).data]
    ∧ ("aw.s2" : String) ≠ ("aws2" : String) :=
  ⟨rfl, rfl, rfl, by decide⟩

/-- C4 amended: digits participate in the lowercase-to-uppercase boundary
step AND in the trailing character class of the acronym-boundary step: a
lower-or-digit character followed by an uppercase receives a boundary, and
two uppercase characters followed by a digit receive a boundary before the
second uppercase, so a string like an acronym followed by a digit is
split. -/
theorem digits_in_boundary_steps :
    (∀ (d u : Char) (rest : List Char), d.isDigit = true → u.isUpper = true →
      Part000.replaceLowerUpper (d :: u :: rest) = d :: ' ' :: u :: Part000.replaceLowerUpper rest)
    ∧ (∀ (a b d : Char) (rest : List Char),
        a.isUpper = true → b.isUpper = true → d.isDigit = true →
        Part000.replaceAcronyms (a :: b :: d :: rest)
          = a :: ' ' :: Part000.replaceAcronyms (b :: d :: rest))
    ∧ Part000.toKebabCase (.str ("AWS2")) = .ok ("aw-s2") := by
  refine ⟨?_, ?_, rfl⟩
  · intro d u rest hd hu
    rw [Part000.replaceLowerUpper, if_pos (by simp [isLowerDigit, hd, hu])]
  · intro a b d rest ha hb hd
    rw [Part000.replaceAcronyms, if_pos (by simp [isLowerDigit, ha, hb, hd])]

/-- Witness for C4 amended at concrete instances of both boundary
steps. -/
theorem digits_in_boundary_steps_witness :
    Part000.replaceLowerUpper ('2' :: 'A' :: []) = '2' :: ' ' :: 'A' :: Part000.replaceLowerUpper []
    ∧ Part000.replaceAcronyms ('W' :: 'S' :: '2' :: [])
      = 'W' :: ' ' :: Part000.replaceAcronyms ('S' :: '2' :: []) :=
  ⟨digits_in_boundary_steps.1 '2' 'A' [] (by decide) (by decide),
    digits_in_boundary_steps.2.1 'W' 'S' '2' [] (by decide) (by decide) (by decide)⟩

/-- C8: the `camelCase` tokenizer splits solely on maximal runs of
non-alphanumeric characters.  Every token is a nonempty all-alphanumeric
run; a maximal alphanumeric run before a separator is emitted as one token
followed by the tokens of the remainder (order preserved, run kept
intact); a leading separator contributes nothing (empty tokens dropped);
an all-alphanumeric string is a single token; and the concrete examples
keep a letter-digit run and a mixed-case run intact and drop leading,
trailing and consecutive separators. -/
theorem camel_tokenizer_splits_nonalnum :
    (∀ s : String, ∀ w ∈ Part000.splitWords s.data, w ≠ [] ∧ ∀ c ∈ w, c.isAlphanum = true)
    ∧ (∀ (xs : List Char) (d : Char) (ys : List Char),
        xs ≠ [] → (∀ c ∈ xs, c.isAlphanum = true) → d.isAlphanum = false →
        Part000.splitWords (xs ++ d :: ys) = xs :: Part000.splitWords ys)
    ∧ (∀ (d : Char) (ys : List Char), d.isAlphanum = false →
        Part000.splitWords (d :: ys) = Part000.splitWords ys)
    ∧ (∀ xs : List Char, xs ≠ [] → (∀ c ∈ xs, c.isAlphanum = true) →
        Part000.splitWords xs = [xs])
    ∧ Part000.splitWords (("nguyen2023" : String).data) = [("nguyen2023" : String).data]
    ∧ Part000.splitWords (("AWS" : String).data) = [("AWS" : String).data]
    ∧ Part000.splitWords (("_andy--nguyen2023_AWS." : String).data)
      = [("andy" : String).data, ("nguyen2023" : String).data, ("AWS" : String).data] := by
  refine ⟨fun s => Part000.splitWords_sound s.data, ?_, ?_, Part000.splitWords_word,
    rfl, rfl, rfl⟩
  · intro xs d ys hne hal hd
    rw [Part000.splitWords_append xs d ys hne hal hd]
  · intro d ys hd
    exact Part000.splitWords_sep d ys hd

/-- Witness for C8 at concrete instances: a maximal run before a separator
and a dropped leading separator. -/
theorem camel_tokenizer_splits_nonalnum_witness :
    Part000.splitWords (['a', '1'] ++ '_' :: ['B'])
      = ['a', '1'] :: Part000.splitWords ['B']
    ∧ Part000.splitWords ('+' :: ['b']) = Part000.splitWords ['b']
    ∧ Part000.splitWords ['x', '2'] = [['x', '2']] :=
  ⟨camel_tokenizer_splits_nonalnum.2.1 ['a', '1'] '_' ['B'] (by decide) (by decide) (by decide),
    camel_tokenizer_splits_nonalnum.2.2.1 '+' ['b'] (by decide),
    camel_tokenizer_splits_nonalnum.2.2.2.1 ['x', '2'] (by decide) (by decide)⟩

/-! Concrete checks of the embedded functions on the examples of the
source comments. -/

example : Part000.camelCase (.str ("Andy Nguyen AWS")) = .ok ("andyNguyenAWS") := rfl
example : Part000.camelCase (.str ("andy_nguyen+AWS")) = .ok ("andyNguyenAWS") := rfl
example : Part000.camelCase (.str ("API_response_data")) = .ok ("apiResponseData") := rfl
example : Part000.camelCase .null = .ok ("") := rfl
example : Part000.dotCase (.str ("Andy Nguyen AWS")) = .ok ("andy.nguyen.aws") := rfl
example : Part000.dotCase (.str ("andy_nguyen+AWS")) = .ok ("andy.nguyen.aws") := rfl
example : Part000.dotCase (.str ("API_response_data")) = .ok ("api.response.data") := rfl
example : Part000.toKebabCase (.str ("Andy Nguyen AWS")) = .ok ("andy-nguyen-aws") := rfl
example : Part000.toKebabCase (.str ("API_response_data")) = .ok ("api-response-data") := rfl
example : Part000.dotCase (.str ("AFoo")) = .ok ("a.foo") := rfl
example : Part000.dotCase (.str ("AWS2")) = .ok ("aw.s2") := rfl
example : Part000.dotCase (.str ("andyNguyenAWS")) = .ok ("andy.nguyen.aws") := rfl
example : ChainPrompt.toKebabCase (.str ("andy_nguyen+AWS")) = .ok ("andy-nguyen-aws") := rfl
example : ChainPrompt.toKebabCase (.str ("andyNguyenAWS")) = .ok ("andynguyenaws") := rfl
example : ChainPrompt.toKebabCase (.str ("  Andy  Nguyen  ")) = .ok ("andy-nguyen") := rfl
example : ChainPrompt.toKebabCase .null = .error ⟨"Invalid Input: expected a string."⟩ := rfl
